import Mathlib

/-
  Verification of the table upcast converter
  (packages/ckeditor5-table/src/converters/upcasttable.ts) and of the
  operation abstraction (packages/ckeditor5-engine/src/document/operations/
  operation.js) of the ckeditor5 repository, via a shallow embedding.
-/

set_option autoImplicit false

namespace CkSpec

/-! ## View tree

A view node is either a text node or an element with a tag name, an
attribute list and an ordered child list.  This mirrors the view items the
converter code walks (`ViewElement` / view `Text`). -/

inductive ViewNode where
  | text (s : String)
  | element (name : String) (attrs : List (String × String)) (children : List ViewNode)
deriving Repr

namespace ViewNode

mutual

/-- Decidable structural equality on view nodes. -/
def decEq : (x y : ViewNode) → Decidable (x = y)
  | .text s, .text t =>
    if h : s = t then .isTrue (by rw [h])
    else .isFalse (fun hh => by cases hh; exact h rfl)
  | .text _, .element _ _ _ => .isFalse (fun hh => ViewNode.noConfusion hh)
  | .element _ _ _, .text _ => .isFalse (fun hh => ViewNode.noConfusion hh)
  | .element n a c, .element n' a' c' =>
    if h : n = n' ∧ a = a' then
      match decEqList c c' with
      | .isTrue hc => .isTrue (by rw [h.1, h.2, hc])
      | .isFalse hc => .isFalse (fun hh => by cases hh; exact hc rfl)
    else .isFalse (fun hh => by cases hh; exact h ⟨rfl, rfl⟩)

/-- Decidable structural equality on lists of view nodes. -/
def decEqList : (xs ys : List ViewNode) → Decidable (xs = ys)
  | [], [] => .isTrue rfl
  | [], _ :: _ => .isFalse (fun h => List.noConfusion h)
  | _ :: _, [] => .isFalse (fun h => List.noConfusion h)
  | x :: xs, y :: ys =>
    match decEq x y, decEqList xs ys with
    | .isTrue h1, .isTrue h2 => .isTrue (by rw [h1, h2])
    | .isFalse h1, _ => .isFalse (fun hh => by cases hh; exact h1 rfl)
    | .isTrue _, .isFalse h2 => .isFalse (fun hh => by cases hh; exact h2 rfl)

end

instance : DecidableEq ViewNode := decEq

/-- Tag name of an element; text nodes have no name (JS reads `undefined`). -/
def name? : ViewNode → Option String
  | .text _ => none
  | .element n _ _ => some n

/-- Child list (text nodes have none). -/
def childrenOf : ViewNode → List ViewNode
  | .text _ => []
  | .element _ _ c => c

/-- Test for `node.is( 'element', tag )`. -/
def isElementNamed (tag : String) : ViewNode → Bool
  | .text _ => false
  | .element n _ _ => n == tag

/-- Attribute lookup, `element.getAttribute( key )`; first matching entry. -/
def getAttribute (key : String) : ViewNode → Option String
  | .text _ => none
  | .element _ attrs _ => (attrs.find? (fun p => p.1 == key)).map (·.2)

/-- View `isEmpty`: an element with no children (a text node with no data). -/
def viewIsEmpty : ViewNode → Bool
  | .text s => s.isEmpty
  | .element _ _ c => c.isEmpty

end ViewNode

/-! ## JavaScript parseInt

The converter reads `rowspan` / `colspan` attributes with
`parseInt( attr as string || '1' )`.  We model `parseInt` returning
`none` for NaN: leading whitespace is skipped, an optional sign and an
optional hexadecimal prefix are recognized, and the longest digit prefix is
converted; no digits means NaN. -/

/-- Value of a digit character in the given base, if valid. -/
def digitValue (base : Nat) (c : Char) : Option Nat :=
  let v : Option Nat :=
    if '0' ≤ c ∧ c ≤ '9' then some (c.toNat - '0'.toNat)
    else if 'a' ≤ c ∧ c ≤ 'f' then some (c.toNat - 'a'.toNat + 10)
    else if 'A' ≤ c ∧ c ≤ 'F' then some (c.toNat - 'A'.toNat + 10)
    else none
  match v with
  | some v => if v < base then some v else none
  | none => none

/-- JavaScript-style parseInt on a string; none models NaN. -/
def jsParseInt (s : String) : Option Int :=
  let cs := s.data.dropWhile (fun c => c = ' ' ∨ c = '\t' ∨ c = '\n' ∨ c = '\r')
  let (sign, cs) : Int × List Char :=
    match cs with
    | '-' :: rest => (-1, rest)
    | '+' :: rest => (1, rest)
    | _ => (1, cs)
  let (base, cs) : Nat × List Char :=
    match cs with
    | '0' :: c :: rest => if c = 'x' ∨ c = 'X' then (16, rest) else (10, '0' :: c :: rest)
    | _ => (10, cs)
  let digits := cs.takeWhile (fun c => (digitValue base c).isSome)
  if digits.isEmpty then none
  else some (sign * (digits.foldl (fun acc c => acc * base + ((digitValue base c).getD 0)) 0))

/-- Effective span attribute of a cell:
`parseInt( cell.getAttribute( name ) as string || '1' )` — a missing
attribute and the empty string both fall back to the string "1". -/
def cellSpan (attr : String) (cell : ViewNode) : Option Int :=
  let s := match cell.getAttribute attr with
    | none => "1"
    | some s => if s = "" then "1" else s
  jsParseInt s

/-! ## Cell matrix generation (generateCellMatrix)

The source keeps, while iterating rows, a JS Map from column index to a
record (cell, remaining) of cells of previous rows whose rowspan reaches
into the current row.  We model the Map as an association list with
insertion-order append for fresh keys and in-place replacement for
existing ones, matching the iteration order of a JS Map. -/

/-- A rowspan-tracking map: column index to (cell, remaining). -/
abbrev RMap := List (Nat × ViewNode × Int)

/-- Map lookup, `map.get( i )`. -/
def rsGet (m : RMap) (i : Nat) : Option (ViewNode × Int) :=
  (m.find? (fun e => e.1 == i)).map (·.2)

/-- Map membership, `map.has( i )`. -/
def rsHas (m : RMap) (i : Nat) : Bool :=
  (rsGet m i).isSome

/-- Map update, `map.set( i, v )`: replaces an existing key in place,
appends a fresh key (JS Map insertion order). -/
def rsSet (m : RMap) (i : Nat) (v : ViewNode × Int) : RMap :=
  if rsHas m i then m.map (fun e => if e.1 == i then (i, v) else e)
  else m ++ [(i, v)]

/-- Number of iterations of the colspan for-loop: `for (i = 0; i < colspan; i++)`
runs toNat-many times for an integer colspan and zero times for NaN. -/
def spanIterations : Option Int → Nat
  | some c => c.toNat
  | none => 0

/-- Whether the rowspan value satisfies `rowspan > 1` (false for NaN). -/
def rowspanGt1 : Option Int → Bool
  | some r => r > 1
  | none => false

/-- The rowspan-map entries registered by one cell during its colspan loop:
at each of the n consecutive slot indexes, when `rowspan > 1`, a record
(cell, rowspan - 1) is stored. -/
def registerRowspans (start n : Nat) (cell : ViewNode) (rowspan : Option Int) (m : RMap) : RMap :=
  (List.range n).foldl (fun acc i =>
    if rowspanGt1 rowspan then rsSet acc (start + i) (cell, rowspan.getD 0 - 1) else acc) m

/-- One row's inner while loop of generateCellMatrix:
`while ( children.length || curSlots.length < maxColumns )`.  Each step
either copies a still-spanning cell from a previous row into the current
slot, consumes the next cell child (occupying colspan-many slots and
registering its rowspan), or pushes a null slot when the children ran out.
The loop is fuel-indexed; `rowLoop_isSome` below shows the fuel used by
`processRow` always suffices. -/
def rowLoop (fuel : Nat) (children : List ViewNode) (curSlots : List (Option ViewNode))
    (prevR curR : RMap) (maxColumns : Nat) : Option (List (Option ViewNode) × RMap) :=
  match fuel with
  | 0 => none
  | fuel + 1 =>
    if children.isEmpty ∧ ¬ (curSlots.length < maxColumns) then
      some (curSlots, curR)
    else
      match (rsGet prevR curSlots.length).filter (fun e => e.2 > 0) with
      | some e =>
        rowLoop fuel children (curSlots ++ [some e.1]) prevR curR maxColumns
      | none =>
        match children with
        | [] => rowLoop fuel [] (curSlots ++ [none]) prevR curR maxColumns
        | cell :: rest =>
          let colspan := cellSpan "colspan" cell
          let rowspan := cellSpan "rowspan" cell
          let n := spanIterations colspan
          let curR' := registerRowspans curSlots.length n cell rowspan curR
          rowLoop fuel rest (curSlots ++ List.replicate n (some cell)) prevR curR' maxColumns

/-- End-of-row update of the rowspan map: every entry carried from previous
rows is decremented and kept only while it still spans and does not
conflict with an entry created by the current row; the current row's
entries win. -/
def endOfRowUpdate (prevR curR : RMap) : RMap :=
  prevR.foldl (fun acc e =>
    let rem := e.2.2 - 1
    if rem > 0 ∧ ¬ (rsHas acc e.1 = true) then rsSet acc e.1 (e.2.1, rem) else acc) curR

/-- The `<th>`/`<td>` element children of a row (text nodes are dropped). -/
def cellChildren (tr : ViewNode) : List ViewNode :=
  tr.childrenOf.filter (fun c => c.name? == some "th" || c.name? == some "td")

/-- Process one `<tr>`: run the slot loop, update the rowspan map and the
running maximum column count. -/
def processRow (prevR : RMap) (maxColumns : Nat) (tr : ViewNode) :
    Option (List (Option ViewNode) × RMap × Nat) :=
  let children := cellChildren tr
  match rowLoop (children.length + maxColumns + 1) children [] prevR [] maxColumns with
  | none => none
  | some (slots, curR) => some (slots, endOfRowUpdate prevR curR, max maxColumns slots.length)

/-- The trs.map pass of generateCellMatrix: accumulated unpadded row slot
arrays, the rowspan map and running maximum column count. -/
def rawScan (trs : List ViewNode) : Option (List (List (Option ViewNode)) × RMap × Nat) :=
  trs.foldl
    (fun acc tr => acc.bind (fun st =>
      (processRow st.2.1 st.2.2 tr).map (fun r => (st.1 ++ [r.1], r.2.1, r.2.2))))
    (some ([], ([] : RMap), 0))

/-- generateCellMatrix, with the fuel-exhaustion escape made explicit:
unpadded rows are computed by rawScan and then every row is padded on the
right with null up to the final maximum column count. -/
def generateCellMatrixO (trs : List ViewNode) : Option (List (List (Option ViewNode))) :=
  (rawScan trs).map (fun st =>
    st.1.map (fun r => r ++ List.replicate (st.2.2 - r.length) (none : Option ViewNode)))

/-- generateCellMatrix of the source (total form; rowLoop_isSome below
shows the escape value is never taken). -/
def generateCellMatrix (trs : List ViewNode) : List (List (Option ViewNode)) :=
  (generateCellMatrixO trs).getD []

/-- The unpadded row slot arrays. -/
def rawRows (trs : List ViewNode) : List (List (Option ViewNode)) :=
  match rawScan trs with
  | some st => st.1
  | none => []

/-- The final running maximum column count. -/
def matrixWidth (trs : List ViewNode) : Nat :=
  match rawScan trs with
  | some st => st.2.2
  | none => 0

/-! ## Table scanning (scanTable) -/

/-- The `<tr>` element children of a section (stray text nodes between
rows are filtered out, source issue #145). -/
def sectionTrs (sec : ViewNode) : List ViewNode :=
  sec.childrenOf.filter (fun el => el.isElementNamed "tr")

/-- Whether a `<tbody>` row is composed of `<th>` cells only:
`Array.from( tr.getChildren() ).length && ...every( e => e.is( 'element', 'th' ) )`. -/
def isAllThBodyRow (secName : String) (tr : ViewNode) : Bool :=
  secName == "tbody" && !tr.childrenOf.isEmpty &&
    tr.childrenOf.all (fun e => e.isElementNamed "th")

/-- The row-classifying loop of scanTable over the table children.
State: (headingRows counter, headRows, bodyRows); the boolean argument
records whether a `<thead>` was already encountered (the source keeps the
first `<thead>` element itself and compares by reference; positionally,
a row is a first-thead row exactly when its section is a `<thead>` and no
earlier `<thead>` exists). -/
def scanRowsAux : List ViewNode → Bool → Nat × List ViewNode × List ViewNode →
    Nat × List ViewNode × List ViewNode
  | [], _, acc => acc
  | child :: rest, theadSeen, acc =>
    match child with
    | .text _ => scanRowsAux rest theadSeen acc
    | .element n _ _ =>
      if n = "tbody" ∨ n = "thead" ∨ n = "tfoot" then
        let isFirstThead := n == "thead" && !theadSeen
        let acc' := (sectionTrs child).foldl
          (fun (a : Nat × List ViewNode × List ViewNode) tr =>
            if isFirstThead || isAllThBodyRow n tr then (a.1 + 1, a.2.1 ++ [tr], a.2.2)
            else (a.1, a.2.1, a.2.2 ++ [tr]))
          acc
        scanRowsAux rest (theadSeen || n == "thead") acc'
      else
        scanRowsAux rest theadSeen acc

/-- Number of leading `<th>` slots of a matrix row:
`while ( index < rowSlots.length )` stopping at the first slot whose
occupant's name is not th (a null slot included). -/
def leadingThCount (slots : List (Option ViewNode)) : Nat :=
  (slots.takeWhile (fun s => match s with
    | some (.element "th" _ _) => true
    | _ => false)).length

/-- Result record of scanTable. -/
structure ScanResult where
  headingRows : Nat
  headingColumns : Nat
  rows : List ViewNode
deriving Repr, DecidableEq

/-- The headingColumns fold of scanTable over the body matrix.  The
accumulator models the JS variable of type number-or-undefined; the update
is guarded by `if ( !headingColumns || index < headingColumns )`, where
`!headingColumns` is true both for undefined and for the number 0. -/
def headingColumnsFold (bodyMatrix : List (List (Option ViewNode))) : Option Nat :=
  bodyMatrix.foldl
    (fun hc rowSlots =>
      let index := leadingThCount rowSlots
      match hc with
      | none => some index
      | some v => if v = 0 ∨ index < v then some index else some v)
    none

/-- scanTable: classifies rows into heading and body rows, computes
headingColumns from the body cell matrix, and returns the rows reordered
heading-first (`headingColumns || 0` maps undefined to 0). -/
def scanTable (viewTable : ViewNode) : ScanResult :=
  let scanned := scanRowsAux viewTable.childrenOf false (0, [], [])
  let bodyMatrix := generateCellMatrix scanned.2.2
  { headingRows := scanned.1
    headingColumns := (headingColumnsFold bodyMatrix).getD 0
    rows := scanned.2.1 ++ scanned.2.2 }

/-! ## Concrete view builders for the test scenarios -/

/-- A `<td>` cell with text content and attributes. -/
def mkTd (s : String) (attrs : List (String × String)) : ViewNode :=
  .element "td" attrs [.text s]

/-- A `<th>` cell with text content. -/
def mkTh (s : String) : ViewNode :=
  .element "th" [] [.text s]

/-- A `<tr>` row. -/
def mkTr (cells : List ViewNode) : ViewNode :=
  .element "tr" [] cells

/-- A `<tbody>` section. -/
def mkTbody (rs : List ViewNode) : ViewNode :=
  .element "tbody" [] rs

/-- A `<thead>` section. -/
def mkThead (rs : List ViewNode) : ViewNode :=
  .element "thead" [] rs

/-- A `<table>` element. -/
def mkTable (secs : List ViewNode) : ViewNode :=
  .element "table" [] secs

/-! ## The body rows and the spec-side headingColumns

`headingColumnsSpec` is a second definition following the words of the
spec only (to compare with scanTable, which is translated from the code):
headingColumns is the minimum, over all body rows of the cell matrix, of
the number of leading `<th>` slots, and 0 when there are no body rows. -/

/-- Body rows of a table as classified by the scanning loop. -/
def bodyRowsOf (t : ViewNode) : List ViewNode :=
  (scanRowsAux t.childrenOf false (0, [], [])).2.2

/-- Spec-side heading-column count: the minimum over the body matrix rows
of the leading `<th>` slot count. -/
def headingColumnsSpec (t : ViewNode) : Nat :=
  ((((generateCellMatrix (bodyRowsOf t)).map leadingThCount).min?)).getD 0

/-- Spec-side row classification of the table children in document order:
a row is marked heading exactly when it belongs to the first-encountered
`<thead>`, or when it is a nonempty `<tbody>` row whose children are all
`<th>` cells; rows of later `<thead>` sections and of `<tfoot>` sections
are body rows (the characterization C3 compares with scanTable). -/
def classifiedRows : List ViewNode → Bool → List (Bool × ViewNode)
  | [], _ => []
  | child :: rest, theadSeen =>
    match child with
    | .text _ => classifiedRows rest theadSeen
    | .element n _ _ =>
      if n = "tbody" ∨ n = "thead" ∨ n = "tfoot" then
        let isFirstThead := n == "thead" && !theadSeen
        (sectionTrs child).map (fun tr => (isFirstThead || isAllThBodyRow n tr, tr))
          ++ classifiedRows rest (theadSeen || n == "thead")
      else classifiedRows rest theadSeen

/-- The heading rows of a table in document order (spec-side). -/
def headingTrsOf (t : ViewNode) : List ViewNode :=
  ((classifiedRows t.childrenOf false).filter (·.1)).map (·.2)

/-- The body rows of a table in document order (spec-side). -/
def bodyTrsOf (t : ViewNode) : List ViewNode :=
  ((classifiedRows t.childrenOf false).filter (fun p => !p.1)).map (·.2)

/-! ## Concrete inputs for the claims about scanTable -/

/-- Table whose body rows are tr[td] then tr[th, td]: the first body row has
zero leading `<th>` slots, the second has one. -/
def c1Table : ViewNode :=
  mkTable [mkTbody [mkTr [mkTd "x" []], mkTr [mkTh "h", mkTd "y" []]]]

/-- First cell of the matrix scenario row 1. -/
def c2CellA : ViewNode := mkTd "a" []

/-- The rowspan-2 cell of the matrix scenario. -/
def c2CellB : ViewNode := mkTd "b" [("rowspan", "2")]

/-- Third cell of the matrix scenario row 1. -/
def c2CellC : ViewNode := mkTd "c" []

/-- The only cell of the matrix scenario row 2. -/
def c2CellD : ViewNode := mkTd "d" []

/-- Row `tr[td, td(rowspan2), td]`. -/
def c2Row1 : ViewNode := mkTr [c2CellA, c2CellB, c2CellC]

/-- Row `tr[td]`. -/
def c2Row2 : ViewNode := mkTr [c2CellD]

/-- The `<thead>` row of the section-order scenario. -/
def c3TheadRow : ViewNode := mkTr [mkTd "1" []]

/-- First `<tbody>` row of the section-order scenario. -/
def c3BodyRow1 : ViewNode := mkTr [mkTd "2" []]

/-- Second `<tbody>` row of the section-order scenario. -/
def c3BodyRow2 : ViewNode := mkTr [mkTd "3" []]

/-- Table with a `<thead>` between two `<tbody>` sections. -/
def c3Table : ViewNode :=
  mkTable [mkTbody [c3BodyRow1], mkThead [c3TheadRow], mkTbody [c3BodyRow2]]

/-! ## Conversion state and the upcast handlers

The handlers registered by upcastTable, upcastTableFigure and
skipEmptyTableRow live in the analyzed source; the engine-side
conversionApi they call (consumable tracker, convertItem, convertChildren,
safeInsert) does not.  The api is therefore modelled from the spec:
the consumable tracker keeps per (view item, aspect) availability flags
with test/consume/revert, safeInsert consults a schema decision and has no
effect on failure, and convertItem/convertChildren are arbitrary
state-transforming oracles (the other registered converters). -/

/-- A model element: name, numeric attributes, children. -/
inductive ModelElement where
  | mk (name : String) (attrs : List (String × Nat)) (children : List ModelElement)
deriving Repr

namespace ModelElement

mutual

/-- Decidable structural equality on model elements. -/
def decEqM : (x y : ModelElement) → Decidable (x = y)
  | .mk n a c, .mk n' a' c' =>
    if h : n = n' ∧ a = a' then
      match decEqMList c c' with
      | .isTrue hc => .isTrue (by rw [h.1, h.2, hc])
      | .isFalse hc => .isFalse (fun hh => by cases hh; exact hc rfl)
    else .isFalse (fun hh => by cases hh; exact h ⟨rfl, rfl⟩)

/-- Decidable structural equality on lists of model elements. -/
def decEqMList : (xs ys : List ModelElement) → Decidable (xs = ys)
  | [], [] => .isTrue rfl
  | [], _ :: _ => .isFalse (fun h => List.noConfusion h)
  | _ :: _, [] => .isFalse (fun h => List.noConfusion h)
  | x :: xs, y :: ys =>
    match decEqM x y, decEqMList xs ys with
    | .isTrue h1, .isTrue h2 => .isTrue (by rw [h1, h2])
    | .isFalse h1, _ => .isFalse (fun hh => by cases hh; exact h1 rfl)
    | .isTrue _, .isFalse h2 => .isFalse (fun hh => by cases hh; exact h2 rfl)

end

instance : DecidableEq ModelElement := decEqM

/-- Children accessor. -/
def children : ModelElement → List ModelElement
  | .mk _ _ c => c

/-- Append children at the end of an element. -/
def appendChildren : ModelElement → List ModelElement → ModelElement
  | .mk n a c, more => .mk n a (c ++ more)

end ModelElement

/-- Modelled from the spec: a consumable aspect of a view item — its
element name or one of its classes (§4.2 descriptor parts). -/
inductive ViewAspect where
  | nameAspect
  | classAspect (c : String)
deriving Repr, DecidableEq

/-- Consumable descriptors used by the table converters:
`{ name: true }` and `{ name: true, classes: 'table' }`. -/
inductive ConsumeDesc where
  | nameOnly
  | nameAndClass (c : String)
deriving Repr, DecidableEq

/-- The aspects a descriptor requests. -/
def descAspects : ConsumeDesc → List ViewAspect
  | .nameOnly => [.nameAspect]
  | .nameAndClass c => [.nameAspect, .classAspect c]

/-- Modelled from the spec: the state one conversion pass threads through
the converters — the consumable tracker (availability of each aspect of
each view item), the model content inserted at the conversion target, and
the running conversion result of the current dispatch
(updateConversionResult's output slot).  In the source the inserted table
element is mutated in place after safeInsert; here the completed table is
recorded once at the end of the handler, which is observationally the
same at handler exit. -/
structure ConvState where
  consumable : ViewNode → ViewAspect → Bool
  doc : List ModelElement
  result : Option ModelElement

/-- Modelled from the spec: consumable `test` — all requested aspects must
still be available. -/
def testDesc (st : ConvState) (item : ViewNode) (d : ConsumeDesc) : Bool :=
  (descAspects d).all (st.consumable item)

/-- Set all aspects requested by a descriptor on one item to a given
availability. -/
def setAspects (st : ConvState) (item : ViewNode) (d : ConsumeDesc) (b : Bool) : ConvState :=
  { st with consumable := fun it a =>
      if it = item ∧ a ∈ descAspects d then b else st.consumable it a }

/-- Modelled from the spec: consumable `consume` — marks the requested
aspects as used. -/
def consumeDesc (st : ConvState) (item : ViewNode) (d : ConsumeDesc) : ConvState :=
  setAspects st item d false

/-- Modelled from the spec: consumable `revert` — restores availability of
the requested aspects. -/
def revertDesc (st : ConvState) (item : ViewNode) (d : ConsumeDesc) : ConvState :=
  setAspects st item d true

/-- Modelled from the spec: the engine services a handler calls.
`allowInsert` is the schema decision behind safeInsert; `convertItem` and
`convertChildren` stand for delegated conversion by the other registered
converters — arbitrary state transformers returning the model items they
produced at the given cursor.  The claims quantify over every such
oracle. -/
structure ConvEnv where
  allowInsert : ModelElement → ConvState → Bool
  convertItem : ViewNode → ConvState → ConvState × List ModelElement
  convertChildren : ViewNode → ConvState → ConvState × List ModelElement

/-- Attributes of the model table created by the element:table handler:
headingColumns and headingRows are set only when nonzero. -/
def scannedTableAttrs (t : ViewNode) : List (String × Nat) :=
  let s := scanTable t
  (if s.headingColumns ≠ 0 then [("headingColumns", s.headingColumns)] else []) ++
    (if s.headingRows ≠ 0 then [("headingRows", s.headingRows)] else [])

/-- The model table element as created (still childless) before safeInsert. -/
def scannedTableElement (t : ViewNode) : ModelElement :=
  .mk "table" (scannedTableAttrs t) []

/-- Modelled from the spec: createEmptyTableCell of table/utils/common
(not among the analyzed sources) — synthesizes one empty table cell. -/
def createEmptyTableCellModel : ModelElement :=
  .mk "tableCell" [] []

/-- Row conversion loop of the element:table handler:
`rows.forEach( row => conversionApi.convertItem( row, ... ) )`, collecting
everything inserted at the table end. -/
def convertRows (env : ConvEnv) (rows : List ViewNode) (st : ConvState) :
    ConvState × List ModelElement :=
  rows.foldl
    (fun acc row =>
      let r := env.convertItem row acc.1
      (r.1, acc.2 ++ r.2))
    (st, [])

/-- The converted content of the table: rows in scan order, then the
remaining children (convertChildren). -/
def upcastConvertedChildren (env : ConvEnv) (viewTable : ViewNode) (st : ConvState) :
    ConvState × List ModelElement :=
  let r := convertRows env (scanTable viewTable).rows st
  let c := env.convertChildren viewTable r.1
  (c.1, r.2 ++ c.2)

/-- The element:table upcast handler (upcastTable): test the name
consumable, scan the table, create the model table with sparse attributes,
attempt safeInsert (abort without side effects on failure), consume,
convert rows then remaining children, synthesize one empty row and cell if
the table stayed empty, and record the conversion result. -/
def upcastTableHandler (env : ConvEnv) (viewTable : ViewNode) (st : ConvState) : ConvState :=
  if !(testDesc st viewTable .nameOnly) then st
  else
    let table0 := scannedTableElement viewTable
    if !(env.allowInsert table0 st) then st
    else
      let st1 := consumeDesc st viewTable .nameOnly
      let conv := upcastConvertedChildren env viewTable st1
      let finalChildren :=
        if conv.2.isEmpty then [ModelElement.mk "tableRow" [] [createEmptyTableCellModel]]
        else conv.2
      let table := ModelElement.mk "table" (scannedTableAttrs viewTable) finalChildren
      { conv.1 with doc := conv.1.doc ++ [table], result := some table }

/-- The first `<table>` child of a figure (getViewTableFromFigure). -/
def getViewTableFromFigure (figureView : ViewNode) : Option ViewNode :=
  figureView.childrenOf.find? (fun c => c.isElementNamed "table")

/-- The element:figure upcast handler (upcastTableFigure): do nothing
unless the figure still has its name+class consumable, contains a
`<table>` child and that child is unconsumed; otherwise consume the
figure, delegate the table conversion, and either revert the figure
consumption (no model table produced) or convert the remaining figure
children into the table and record the result. -/
def upcastTableFigureHandler (env : ConvEnv) (figure : ViewNode) (st : ConvState) : ConvState :=
  if !(testDesc st figure (.nameAndClass "table")) then st
  else
    match getViewTableFromFigure figure with
    | none => st
    | some viewTable =>
      if !(testDesc st viewTable .nameOnly) then st
      else
        let st1 := consumeDesc st figure (.nameAndClass "table")
        let conv := env.convertItem viewTable st1
        match conv.2.head? with
        | none => revertDesc conv.1 figure (.nameAndClass "table")
        | some modelTable =>
          let rest := env.convertChildren figure conv.1
          let modelTable2 := modelTable.appendChildren rest.2
          { rest.1 with result := some modelTable2 }

/-- The skipEmptyTableRow guard condition: the handler calls `evt.stop()`
exactly when `data.viewItem.isEmpty && data.modelCursor.index == 0`
(stopping suppresses conversion of the row; not stopping lets the normal
converters run, preserving the row). -/
def skipEmptyTableRowStops (viewItem : ViewNode) (cursorIndex : Nat) : Bool :=
  viewItem.viewIsEmpty && cursorIndex == 0

/-! ## The operation abstraction

The analyzed operation source is the abstract base class only: it fixes
baseVersion, and documents execute, getReversed and getTransformedBy as
contracts to be provided by the concrete operation kinds, which are not
among the analyzed sources.  Following §4.1 of the specification, the
concrete kinds are modelled from the spec as a closed sum of the listed
atomic changes (insert / delete / attribute / rename / marker over the §3
node tree; each operation carries enough of the prior state — old values,
removed nodes — for getReversed to be a pure function of the operation
alone, as the contract requires). -/

/-- A model tree node for the operation model: text with attributes, or an
element with attributes and children. -/
inductive MNode where
  | text (s : String) (attrs : List (String × String))
  | element (name : String) (attrs : List (String × String)) (children : List MNode)
deriving Repr

mutual

/-- Decidable structural equality on model nodes. -/
def decEqN : (x y : MNode) → Decidable (x = y)
  | .text s a, .text s' a' =>
    if h : s = s' ∧ a = a' then .isTrue (by rw [h.1, h.2])
    else .isFalse (fun hh => by cases hh; exact h ⟨rfl, rfl⟩)
  | .text _ _, .element _ _ _ => .isFalse (fun hh => MNode.noConfusion hh)
  | .element _ _ _, .text _ _ => .isFalse (fun hh => MNode.noConfusion hh)
  | .element n a c, .element n' a' c' =>
    if h : n = n' ∧ a = a' then
      match decEqNList c c' with
      | .isTrue hc => .isTrue (by rw [h.1, h.2, hc])
      | .isFalse hc => .isFalse (fun hh => by cases hh; exact hc rfl)
    else .isFalse (fun hh => by cases hh; exact h ⟨rfl, rfl⟩)

/-- Decidable structural equality on lists of model nodes. -/
def decEqNList : (xs ys : List MNode) → Decidable (xs = ys)
  | [], [] => .isTrue rfl
  | [], _ :: _ => .isFalse (fun h => List.noConfusion h)
  | _ :: _, [] => .isFalse (fun h => List.noConfusion h)
  | x :: xs, y :: ys =>
    match decEqN x y, decEqNList xs ys with
    | .isTrue h1, .isTrue h2 => .isTrue (by rw [h1, h2])
    | .isFalse h1, _ => .isFalse (fun hh => by cases hh; exact h1 rfl)
    | .isTrue _, .isFalse h2 => .isFalse (fun hh => by cases hh; exact h2 rfl)

end

instance : DecidableEq MNode := decEqN

/-- Association-list lookup by key (first match). -/
def alookup {β : Type} (k : String) : List (String × β) → Option β
  | [] => none
  | e :: rest => if e.1 = k then some e.2 else alookup k rest

/-- Modelled from the spec: keyed update of an attribute/marker map.
Setting a value replaces every entry of the key in place, or prepends a
fresh entry; setting none removes the key's entries. -/
def aset {β : Type} (k : String) (v : Option β) (l : List (String × β)) : List (String × β) :=
  match v with
  | some v' =>
    if (alookup k l).isSome then l.map (fun e => if e.1 = k then (k, v') else e)
    else (k, v') :: l
  | none => l.filter (fun e => !(e.1 = k : Bool))

/-- A position in the model tree: path to the parent and child offset. -/
structure MPosition where
  path : List Nat
  offset : Nat
deriving Repr, DecidableEq

/-- A model range: an ordered pair of positions. -/
structure MRange where
  first : MPosition
  last : MPosition
deriving Repr, DecidableEq

/-- Modelled from the spec: the closed sum of concrete operation kinds
(§4.1 lists insert/delete/move/attribute/marker/rename as the
feature-specific changes; a representative closed set is modelled).  Every
operation carries the baseVersion it assumes. -/
inductive Operation where
  | insertOp (path : List Nat) (offset : Nat) (nodes : List MNode) (base : Nat)
  | removeOp (path : List Nat) (offset : Nat) (nodes : List MNode) (base : Nat)
  | attributeOp (path : List Nat) (key : String) (oldVal newVal : Option String) (base : Nat)
  | renameOp (path : List Nat) (oldName newName : String) (base : Nat)
  | markerOp (name : String) (oldRange newRange : Option MRange) (base : Nat)
deriving Repr

/-- The document version an operation assumes (Operation#baseVersion). -/
def Operation.baseVersion : Operation → Nat
  | .insertOp _ _ _ b => b
  | .removeOp _ _ _ b => b
  | .attributeOp _ _ _ _ b => b
  | .renameOp _ _ _ b => b
  | .markerOp _ _ _ b => b

/-- Modelled from the spec: getReversed — a new operation that, executed
immediately after this one (hence at baseVersion + 1), restores the prior
state; a pure function of the operation instance. -/
def Operation.getReversed : Operation → Operation
  | .insertOp p o ns b => .removeOp p o ns (b + 1)
  | .removeOp p o ns b => .insertOp p o ns (b + 1)
  | .attributeOp p k ov nv b => .attributeOp p k nv ov (b + 1)
  | .renameOp p a c b => .renameOp p c a (b + 1)
  | .markerOp n a c b => .markerOp n c a (b + 1)

/-- Apply a fallible transformation to the node addressed by a path,
rebuilding the spine; fails when the path does not resolve. -/
def modifyAtPath (f : MNode → Option MNode) : List Nat → MNode → Option MNode
  | [], t => f t
  | i :: p, t =>
    match t with
    | .text _ _ => none
    | .element n a c =>
      match c.get? i with
      | none => none
      | some child =>
        (modifyAtPath f p child).map (fun child' => .element n a (c.set i child'))

/-- Insert nodes into an element's child list at an offset; the offset
must exist. -/
def insertChildren (offset : Nat) (nodes : List MNode) : MNode → Option MNode
  | .text _ _ => none
  | .element n a c =>
    if offset ≤ c.length then
      some (.element n a (c.take offset ++ nodes ++ c.drop offset))
    else none

/-- Remove nodes from an element's child list at an offset; the offset
must exist and the removed slice must equal the nodes the operation
describes (precondition of a delete operation, which carries its removed
content so that its reverse is pure). -/
def removeChildren (offset : Nat) (nodes : List MNode) : MNode → Option MNode
  | .text _ _ => none
  | .element n a c =>
    if offset ≤ c.length ∧ (c.drop offset).take nodes.length = nodes then
      some (.element n a (c.take offset ++ c.drop (offset + nodes.length)))
    else none

/-- Change one attribute of a node; the current value must equal the
operation's old value. -/
def setNodeAttr (k : String) (ov nv : Option String) : MNode → Option MNode
  | .text s a => if alookup k a = ov then some (.text s (aset k nv a)) else none
  | .element n a c => if alookup k a = ov then some (.element n (aset k nv a) c) else none

/-- Rename an element; the current name must equal the operation's old
name. -/
def renameNode (oldName newName : String) : MNode → Option MNode
  | .text _ _ => none
  | .element n a c => if n = oldName then some (.element newName a c) else none

/-- A document: root tree, marker map, current version. -/
structure MDocument where
  root : MNode
  markers : List (String × MRange)
  version : Nat
deriving Repr

/-- Modelled from the spec: execute — the modification the operation
describes, applied to root and markers; fails when the operation's
precondition does not hold in the tree. -/
def executeOp : Operation → MNode → List (String × MRange) →
    Option (MNode × List (String × MRange))
  | .insertOp p o ns _, root, mk =>
    (modifyAtPath (insertChildren o ns) p root).map (fun r => (r, mk))
  | .removeOp p o ns _, root, mk =>
    (modifyAtPath (removeChildren o ns) p root).map (fun r => (r, mk))
  | .attributeOp p k ov nv _, root, mk =>
    (modifyAtPath (setNodeAttr k ov nv) p root).map (fun r => (r, mk))
  | .renameOp p a c _, root, mk =>
    (modifyAtPath (renameNode a c) p root).map (fun r => (r, mk))
  | .markerOp n a c _, root, mk =>
    if alookup n mk = a then some (root, aset n c mk) else none

/-- Modelled from the spec: the document applies an operation only at a
matching baseVersion (mismatch is rejected before execute is invoked) and
then advances its version. -/
def applyOperation (doc : MDocument) (op : Operation) : Option MDocument :=
  if op.baseVersion = doc.version then
    (executeOp op doc.root doc.markers).map (fun r => ⟨r.1, r.2, doc.version + 1⟩)
  else none

/-- Observational equality of attribute/marker maps: equal lookups on the
keys either side mentions (hence on all keys). -/
def attrsEquivB {β : Type} [DecidableEq β] (a b : List (String × β)) : Bool :=
  (a.map (·.1) ++ b.map (·.1)).all (fun k => decide (alookup k a = alookup k b))

mutual

/-- Observational equality of model nodes: same shape and text, equal
attribute lookups everywhere. -/
def nodeEquivB : MNode → MNode → Bool
  | .text s a, .text s' a' => s == s' && attrsEquivB a a'
  | .element n a c, .element n' a' c' => n == n' && attrsEquivB a a' && nodeListEquivB c c'
  | _, _ => false

/-- Pointwise observational equality of child lists. -/
def nodeListEquivB : List MNode → List MNode → Bool
  | [], [] => true
  | x :: xs, y :: ys => nodeEquivB x y && nodeListEquivB xs ys
  | _, _ => false

end

/-! # Theorems -/

/-! ## Sanity checks of the parseInt and span models -/

example : jsParseInt "2" = some 2 := by decide
example : jsParseInt "-3" = some (-3) := by decide
example : jsParseInt "abc" = none := by decide
example : jsParseInt "0" = some 0 := by decide
example : jsParseInt " 12px" = some 12 := by decide
example : jsParseInt "0x10" = some 16 := by decide
example : cellSpan "rowspan" (.element "td" [] []) = some 1 := by decide
example : cellSpan "rowspan" (.element "td" [("rowspan", "2")] []) = some 2 := by decide
example : cellSpan "rowspan" (.element "td" [("rowspan", "")] []) = some 1 := by decide

/-! ## Sanity checks of generateCellMatrix against the examples in the
source doc comment -/

example :
    generateCellMatrix
      [mkTr [mkTd "11" [], mkTd "12-22" [("rowspan", "2")], mkTd "13" []],
       mkTr [mkTd "21" [], mkTd "23" []],
       mkTr [mkTd "31-32" [("colspan", "2")], mkTd "33" []]] =
      [[some (mkTd "11" []), some (mkTd "12-22" [("rowspan", "2")]), some (mkTd "13" [])],
       [some (mkTd "21" []), some (mkTd "12-22" [("rowspan", "2")]), some (mkTd "23" [])],
       [some (mkTd "31-32" [("colspan", "2")]), some (mkTd "31-32" [("colspan", "2")]),
        some (mkTd "33" [])]] := by
  decide

example :
    generateCellMatrix
      [mkTr [mkTd "11" [], mkTd "12" [], mkTd "13-23" [("rowspan", "2")]],
       mkTr [mkTd "21" []],
       mkTr [mkTd "31" []]] =
      [[some (mkTd "11" []), some (mkTd "12" []), some (mkTd "13-23" [("rowspan", "2")])],
       [some (mkTd "21" []), none, some (mkTd "13-23" [("rowspan", "2")])],
       [some (mkTd "31" []), none, none]] := by
  decide

/-! ## C1: heading-column computation -/

/-- C1: the claim states that scanTable's headingColumns equals the
minimum, over all body rows of the cell matrix, of the number of leading
`<th>` slots, so that a body row with zero leading `<th>` slots forces 0
regardless of its position.  The code disagrees: its update guard
`if ( !headingColumns || index < headingColumns )` treats an accumulated 0
as unset (JS falsiness), so a zero row followed by a nonzero row yields
the later row's count.  On the table with body rows tr[td] then
tr[th, td] the code computes 1 while the spec minimum is 0; with the rows
in the opposite order the code agrees with the minimum, confirming the
order dependence. -/
theorem scanTable_headingColumns_deviates_from_min :
    (scanTable c1Table).headingColumns = 1 ∧
      headingColumnsSpec c1Table = 0 ∧
      (scanTable (mkTable [mkTbody [mkTr [mkTh "h", mkTd "y" []], mkTr [mkTd "x" []]]])).headingColumns = 0 := by
  refine ⟨?_, ?_, ?_⟩ <;> decide

/-! ## C3: heading/body row classification and reordering -/

theorem foldl_classify (f : ViewNode → Bool) (trs : List ViewNode) :
    ∀ a : Nat × List ViewNode × List ViewNode,
      trs.foldl (fun a tr => if f tr then (a.1 + 1, a.2.1 ++ [tr], a.2.2)
        else (a.1, a.2.1, a.2.2 ++ [tr])) a =
      (a.1 + (trs.filter f).length, a.2.1 ++ trs.filter f,
       a.2.2 ++ trs.filter (fun tr => !f tr)) := by
  induction trs with
  | nil => intro a; simp
  | cons tr trs ih =>
    intro a
    by_cases h : f tr = true
    · simp only [List.foldl_cons, List.filter_cons, h, if_true, ih, Bool.not_true,
        List.length_cons]
      refine congrArg₂ Prod.mk (by omega) (congrArg₂ Prod.mk ?_ rfl)
      simp
    · have h' : f tr = false := by revert h; cases f tr <;> simp
      simp only [List.foldl_cons, List.filter_cons, h', if_false, ih, Bool.not_false,
        Bool.false_eq_true, if_true]
      refine congrArg₂ Prod.mk rfl (congrArg₂ Prod.mk rfl ?_)
      simp

theorem map_pair_filter_pos {α : Type} (f : α → Bool) (l : List α) :
    ((l.map (fun x => (f x, x))).filter (·.1)).map (·.2) = l.filter f := by
  induction l with
  | nil => rfl
  | cons x l ih => by_cases h : f x = true <;> simp [h, ih]

theorem map_pair_filter_neg {α : Type} (f : α → Bool) (l : List α) :
    ((l.map (fun x => (f x, x))).filter (fun p => !p.1)).map (·.2) =
      l.filter (fun x => !f x) := by
  induction l with
  | nil => rfl
  | cons x l ih => by_cases h : f x = true <;> simp [h, ih]

theorem scanRowsAux_characterization :
    ∀ (children : List ViewNode) (ts : Bool) (a : Nat × List ViewNode × List ViewNode),
      scanRowsAux children ts a =
        (a.1 + ((classifiedRows children ts).filter (·.1)).length,
         a.2.1 ++ ((classifiedRows children ts).filter (·.1)).map (·.2),
         a.2.2 ++ ((classifiedRows children ts).filter (fun p => !p.1)).map (·.2)) := by
  intro children
  induction children with
  | nil => intro ts a; simp [scanRowsAux, classifiedRows]
  | cons child rest ih =>
    intro ts a
    match child with
    | .text s => simpa [scanRowsAux, classifiedRows] using ih ts a
    | .element n cattrs cch =>
      by_cases hn : n = "tbody" ∨ n = "thead" ∨ n = "tfoot"
      · simp only [scanRowsAux, classifiedRows, hn, if_true]
        rw [foldl_classify, ih]
        have hpos := map_pair_filter_pos
          (fun tr => (n == "thead" && !ts) || isAllThBodyRow n tr)
          (sectionTrs (ViewNode.element n cattrs cch))
        have hneg := map_pair_filter_neg
          (fun tr => (n == "thead" && !ts) || isAllThBodyRow n tr)
          (sectionTrs (ViewNode.element n cattrs cch))
        simp only [List.filter_append, List.map_append, List.length_append, hpos, hneg]
        refine congrArg₂ Prod.mk ?_ (congrArg₂ Prod.mk ?_ ?_)
        · have hlen := congrArg List.length hpos
          simp only [List.length_map] at hlen
          omega
        · simp [List.append_assoc]
        · simp [List.append_assoc]
      · simp only [scanRowsAux, classifiedRows, hn, if_false]
        exact ih ts a

/-- C3: scanTable classifies a row as heading exactly when it belongs to
the first-encountered `<thead>` (later `<thead>` rows become body rows) or
is a nonempty `<tbody>` row made of `<th>` cells only; the returned rows
are all heading rows first, then all body rows, each group in document
order, and headingRows is the number of heading rows.  In particular, on
the concrete table tbody{tr[2]} thead{tr[1]} tbody{tr[3]} the heading row
is listed first with headingRows = 1. -/
theorem scanTable_rows_characterization :
    (∀ t : ViewNode,
      (scanTable t).rows = headingTrsOf t ++ bodyTrsOf t ∧
      (scanTable t).headingRows = (headingTrsOf t).length) ∧
    scanTable c3Table =
      { headingRows := 1, headingColumns := 0,
        rows := [c3TheadRow, c3BodyRow1, c3BodyRow2] } := by
  constructor
  · intro t
    have h := scanRowsAux_characterization t.childrenOf false (0, [], [])
    constructor
    · show (scanRowsAux t.childrenOf false (0, [], [])).2.1 ++
        (scanRowsAux t.childrenOf false (0, [], [])).2.2 = _
      rw [h]
      simp [headingTrsOf, bodyTrsOf]
    · show (scanRowsAux t.childrenOf false (0, [], [])).1 = _
      rw [h]
      simp [headingTrsOf, List.length_map]
  · decide

/-! ## Rowspan map and row loop lemmas (towards C8 and C10) -/

theorem rsGet_key_mem {m : RMap} {i : Nat} {e : ViewNode × Int} (h : rsGet m i = some e) :
    ∃ x ∈ m, x.1 = i := by
  unfold rsGet at h
  cases hf : m.find? (fun e => e.1 == i) with
  | none => rw [hf] at h; simp at h
  | some x =>
    have hmem := List.mem_of_find?_eq_some hf
    have hpred := List.find?_some hf
    exact ⟨x, hmem, by simpa using hpred⟩

theorem rsSet_mem {m : RMap} {i : Nat} {v : ViewNode × Int} {e : Nat × ViewNode × Int}
    (h : e ∈ rsSet m i v) : e ∈ m ∨ e.1 = i := by
  unfold rsSet at h
  by_cases hh : rsHas m i = true
  · rw [if_pos hh] at h
    obtain ⟨x, hx, hfx⟩ := List.mem_map.1 h
    by_cases hxi : (x.1 == i) = true
    · right; rw [if_pos hxi] at hfx; rw [← hfx]
    · left; rw [if_neg hxi] at hfx; rw [← hfx]; exact hx
  · rw [if_neg hh] at h
    rcases List.mem_append.1 h with h1 | h2
    · exact Or.inl h1
    · right; simp at h2; rw [h2]

theorem registerRowspans_mem {start n : Nat} {cell : ViewNode} {rs : Option Int}
    {m : RMap} {e : Nat × ViewNode × Int} (h : e ∈ registerRowspans start n cell rs m) :
    e ∈ m ∨ ∃ i, i < n ∧ e.1 = start + i := by
  have key : ∀ (l : List Nat) (m0 : RMap),
      e ∈ l.foldl (fun acc i =>
        if rowspanGt1 rs then rsSet acc (start + i) (cell, rs.getD 0 - 1) else acc) m0 →
      e ∈ m0 ∨ ∃ i ∈ l, e.1 = start + i := by
    intro l
    induction l with
    | nil => intro m0 h0; exact Or.inl h0
    | cons j l ih =>
      intro m0 h0
      simp only [List.foldl_cons] at h0
      rcases ih _ h0 with h1 | ⟨i, hi, hie⟩
      · by_cases hg : rowspanGt1 rs = true
        · rw [if_pos hg] at h1
          rcases rsSet_mem h1 with h2 | h2
          · exact Or.inl h2
          · exact Or.inr ⟨j, by simp, h2⟩
        · rw [if_neg hg] at h1; exact Or.inl h1
      · exact Or.inr ⟨i, by simp [hi], hie⟩
  rcases key (List.range n) m h with h1 | ⟨i, hi, hie⟩
  · exact Or.inl h1
  · exact Or.inr ⟨i, List.mem_range.1 hi, hie⟩

theorem rowLoop_isSome :
    ∀ (fuel : Nat) (children : List ViewNode) (curSlots : List (Option ViewNode))
      (prevR curR : RMap) (maxC : Nat),
      (∀ e ∈ prevR, e.1 < maxC) →
      children.length + (maxC - curSlots.length) < fuel →
      (rowLoop fuel children curSlots prevR curR maxC).isSome = true := by
  intro fuel
  induction fuel with
  | zero => intro children curSlots prevR curR maxC _ hm; omega
  | succ fuel ih =>
    intro children curSlots prevR curR maxC hkeys hm
    by_cases hexit : (children.isEmpty = true ∧ ¬ (curSlots.length < maxC))
    · simp only [rowLoop, if_pos hexit, Option.isSome_some]
    · simp only [rowLoop, if_neg hexit]
      cases hg : (rsGet prevR curSlots.length).filter (fun e => e.2 > 0) with
      | some e =>
        have hsome : rsGet prevR curSlots.length = some e := by
          cases hr : rsGet prevR curSlots.length with
          | none => rw [hr] at hg; simp [Option.filter] at hg
          | some v =>
            rw [hr] at hg
            simp only [Option.filter] at hg
            by_cases hv : (decide (v.2 > 0)) = true
            · rw [if_pos hv] at hg; exact hg
            · rw [if_neg hv] at hg; simp at hg
        obtain ⟨x, hx, hxi⟩ := rsGet_key_mem hsome
        have hlt : curSlots.length < maxC := hxi ▸ hkeys x hx
        exact ih children (curSlots ++ [some e.1]) prevR curR maxC hkeys
          (by simp only [List.length_append, List.length_cons, List.length_nil]; omega)
      | none =>
        cases children with
        | nil =>
          have hlt : curSlots.length < maxC := by
            by_contra hcon
            exact hexit ⟨by simp, hcon⟩
          exact ih [] (curSlots ++ [none]) prevR curR maxC hkeys
            (by simp only [List.length_append, List.length_cons, List.length_nil,
              List.length_eq_zero]; omega)
        | cons cell rest =>
          refine ih rest _ prevR _ maxC hkeys ?_
          simp only [List.length_append, List.length_replicate, List.length_cons] at hm ⊢
          omega

theorem rowLoop_post :
    ∀ (fuel : Nat) (children : List ViewNode) (curSlots : List (Option ViewNode))
      (prevR curR : RMap) (maxC : Nat) (slots : List (Option ViewNode)) (curR' : RMap),
      rowLoop fuel children curSlots prevR curR maxC = some (slots, curR') →
      (∀ e ∈ curR, e.1 < curSlots.length) →
      (∀ e ∈ curR', e.1 < slots.length) ∧ curSlots.length ≤ slots.length := by
  intro fuel
  induction fuel with
  | zero => intro children curSlots prevR curR maxC slots curR' h; simp [rowLoop] at h
  | succ fuel ih =>
    intro children curSlots prevR curR maxC slots curR' h hkeys
    by_cases hexit : (children.isEmpty = true ∧ ¬ (curSlots.length < maxC))
    · simp only [rowLoop, if_pos hexit, Option.some.injEq, Prod.mk.injEq] at h
      obtain ⟨h1, h2⟩ := h
      subst h1; subst h2
      exact ⟨hkeys, Nat.le_refl _⟩
    · simp only [rowLoop, if_neg hexit] at h
      cases hg : (rsGet prevR curSlots.length).filter (fun e => e.2 > 0) with
      | some e =>
        rw [hg] at h
        have := ih children (curSlots ++ [some e.1]) prevR curR maxC slots curR' h
          (fun x hx => by
            have := hkeys x hx
            simp only [List.length_append, List.length_cons, List.length_nil]
            omega)
        refine ⟨this.1, ?_⟩
        have := this.2
        simp only [List.length_append, List.length_cons, List.length_nil] at this
        omega
      | none =>
        rw [hg] at h
        cases children with
        | nil =>
          have := ih [] (curSlots ++ [none]) prevR curR maxC slots curR' h
            (fun x hx => by
              have := hkeys x hx
              simp only [List.length_append, List.length_cons, List.length_nil]
              omega)
          refine ⟨this.1, ?_⟩
          have := this.2
          simp only [List.length_append, List.length_cons, List.length_nil] at this
          omega
        | cons cell rest =>
          have := ih rest
            (curSlots ++ List.replicate (spanIterations (cellSpan "colspan" cell)) (some cell))
            prevR
            (registerRowspans curSlots.length (spanIterations (cellSpan "colspan" cell))
              cell (cellSpan "rowspan" cell) curR)
            maxC slots curR' h
            (fun x hx => by
              rcases registerRowspans_mem hx with h1 | ⟨i, hi, hie⟩
              · have := hkeys x h1
                simp only [List.length_append, List.length_replicate]
                omega
              · simp only [List.length_append, List.length_replicate]
                omega)
          refine ⟨this.1, ?_⟩
          have := this.2
          simp only [List.length_append, List.length_replicate] at this
          omega

theorem endOfRowUpdate_keys {prevR curR : RMap} {maxC bound : Nat}
    (hp : ∀ e ∈ prevR, e.1 < maxC) (hc : ∀ e ∈ curR, e.1 < bound) :
    ∀ e ∈ endOfRowUpdate prevR curR, e.1 < max maxC bound := by
  unfold endOfRowUpdate
  have key : ∀ (l : RMap) (acc : RMap),
      (∀ e ∈ l, e.1 < maxC) → (∀ e ∈ acc, e.1 < max maxC bound) →
      ∀ e ∈ l.foldl (fun acc e =>
        if (e.2.2 - 1 : Int) > 0 ∧ ¬ (rsHas acc e.1 = true)
        then rsSet acc e.1 (e.2.1, e.2.2 - 1) else acc) acc,
        e.1 < max maxC bound := by
    intro l
    induction l with
    | nil => intro acc _ hacc e he; exact hacc e he
    | cons x l ih =>
      intro acc hl hacc e he
      simp only [List.foldl_cons] at he
      refine ih _ (fun y hy => hl y (by simp [hy])) ?_ e he
      intro y hy
      by_cases hcnd : ((x.2.2 - 1 : Int) > 0 ∧ ¬ (rsHas acc x.1 = true))
      · rw [if_pos hcnd] at hy
        rcases rsSet_mem hy with h1 | h1
        · exact hacc y h1
        · rw [h1]
          exact lt_of_lt_of_le (hl x (by simp)) (le_max_left _ _)
      · rw [if_neg hcnd] at hy
        exact hacc y hy
  exact key prevR curR hp
    (fun e he => lt_of_lt_of_le (hc e he) (le_max_right _ _))

theorem processRow_some {prevR : RMap} {maxC : Nat} (tr : ViewNode)
    (hp : ∀ e ∈ prevR, e.1 < maxC) :
    ∃ slots prevR' maxC',
      processRow prevR maxC tr = some (slots, prevR', maxC') ∧
      (∀ e ∈ prevR', e.1 < maxC') ∧ maxC' = max maxC slots.length := by
  have hsome := rowLoop_isSome ((cellChildren tr).length + maxC + 1) (cellChildren tr)
    [] prevR [] maxC hp (by simp only [List.length_nil, Nat.sub_zero]; omega)
  cases hr : rowLoop ((cellChildren tr).length + maxC + 1) (cellChildren tr) [] prevR [] maxC with
  | none => rw [hr] at hsome; simp at hsome
  | some r =>
    have hpost := rowLoop_post _ _ _ _ _ _ r.1 r.2 (by rw [hr]) (by simp)
    refine ⟨r.1, endOfRowUpdate prevR r.2, max maxC r.1.length, ?_, ?_, rfl⟩
    · simp only [processRow]
      rw [hr]
    · exact endOfRowUpdate_keys hp hpost.1

theorem rawScan_invariant :
    ∀ (trs : List ViewNode) (rows : List (List (Option ViewNode))) (prevR : RMap) (maxC : Nat),
      (∀ e ∈ prevR, e.1 < maxC) →
      (∀ r ∈ rows, r.length ≤ maxC) →
      maxC = rows.foldl (fun a r => max a r.length) 0 →
      ∃ rows' prevR' maxC',
        trs.foldl
          (fun acc tr => acc.bind (fun st =>
            (processRow st.2.1 st.2.2 tr).map (fun r => (st.1 ++ [r.1], r.2.1, r.2.2))))
          (some (rows, prevR, maxC)) = some (rows', prevR', maxC') ∧
        (∀ r ∈ rows', r.length ≤ maxC') ∧
        maxC' = rows'.foldl (fun a r => max a r.length) 0 := by
  intro trs
  induction trs with
  | nil =>
    intro rows prevR maxC _ hrows hfold
    exact ⟨rows, prevR, maxC, rfl, hrows, hfold⟩
  | cons tr trs ih =>
    intro rows prevR maxC hp hrows hfold
    obtain ⟨slots, prevR', maxC', hstep, hkeys', hmax'⟩ := processRow_some tr hp
    have hstep2 : ((some (rows, prevR, maxC)).bind (fun st =>
        (processRow st.2.1 st.2.2 tr).map (fun r => (st.1 ++ [r.1], r.2.1, r.2.2)))) =
        some (rows ++ [slots], prevR', maxC') := by
      simp [hstep]
    simp only [List.foldl_cons, hstep2]
    have h1 : ∀ r ∈ rows ++ [slots], r.length ≤ maxC' := by
      intro r hr
      rcases List.mem_append.1 hr with h | h
      · exact le_trans (hrows r h) (hmax' ▸ le_max_left _ _)
      · simp at h
        rw [h, hmax']
        exact le_max_right _ _
    have h2 : maxC' = (rows ++ [slots]).foldl (fun a r => max a r.length) 0 := by
      rw [List.foldl_append]
      simp only [List.foldl_cons, List.foldl_nil]
      rw [← hfold, hmax']
    exact ih (rows ++ [slots]) prevR' maxC' hkeys' h1 h2

/-! ## C10: generateCellMatrix terminates on every input -/

/-- C10: generateCellMatrix terminates on every finite array of rows for
every value of the rowspan/colspan attributes (0, negative and
non-numeric included): the fuel-indexed rendering of its inner while loop
never exhausts the fuel processRow supplies, because every iteration
either consumes a child or appends a slot, and a rowspan record can only
sit at a column index below the running maximum.  Hence the optional
result is always some matrix. -/
theorem generateCellMatrixO_total : ∀ trs : List ViewNode, ∃ m, generateCellMatrixO trs = some m := by
  intro trs
  obtain ⟨rows', prevR', maxC', hfold, -, -⟩ :=
    rawScan_invariant trs [] [] 0 (by simp) (by simp) (by simp)
  refine ⟨rows'.map (fun r => r ++ List.replicate (maxC' - r.length) none), ?_⟩
  unfold generateCellMatrixO rawScan
  rw [hfold]
  rfl

/-! ## C8: the returned matrix is rectangular -/

/-- C8: every row of the matrix returned by generateCellMatrix has length
equal to the global maximum column count encountered across all rows, the
shorter rows having been padded on the right with null slots: the result
is exactly the unpadded rows right-padded with none up to matrixWidth,
and matrixWidth is the maximum of the unpadded row lengths. -/
theorem generateCellMatrix_rectangular :
    ∀ trs : List ViewNode,
      (∀ row ∈ generateCellMatrix trs, row.length = matrixWidth trs) ∧
      generateCellMatrix trs =
        (rawRows trs).map (fun r => r ++ List.replicate (matrixWidth trs - r.length) none) ∧
      matrixWidth trs = (rawRows trs).foldl (fun a r => max a r.length) 0 := by
  intro trs
  obtain ⟨rows', prevR', maxC', hfold, hle, hmax⟩ :=
    rawScan_invariant trs [] [] 0 (by simp) (by simp) (by simp)
  have hscan : rawScan trs = some (rows', prevR', maxC') := hfold
  have hmat : generateCellMatrix trs =
      rows'.map (fun r => r ++ List.replicate (maxC' - r.length) none) := by
    unfold generateCellMatrix generateCellMatrixO
    rw [hscan]
    rfl
  have hwidth : matrixWidth trs = maxC' := by unfold matrixWidth; rw [hscan]
  have hraw : rawRows trs = rows' := by unfold rawRows; rw [hscan]
  refine ⟨?_, ?_, ?_⟩
  · intro row hrow
    rw [hmat] at hrow
    obtain ⟨r, hr, hrr⟩ := List.mem_map.1 hrow
    rw [← hrr, hwidth]
    simp only [List.length_append, List.length_replicate]
    have := hle r hr
    omega
  · rw [hmat, hwidth, hraw]
  · rw [hwidth, hraw, hmax]

/-- Witness for C8: the concrete two-row rowspan table has a rectangular
3-column matrix: its first row has length matrixWidth. -/
theorem generateCellMatrix_rectangular_witness :
    ([some c2CellA, some c2CellB, some c2CellC] : List (Option ViewNode)).length =
      matrixWidth [c2Row1, c2Row2] :=
  (generateCellMatrix_rectangular [c2Row1, c2Row2]).1
    [some c2CellA, some c2CellB, some c2CellC] (by decide)

/-! ## C2: the rowspan matrix scenario -/

/-- C2 (counterexample): the claim states the matrix of
tbody{tr[td, td(rowspan2), td]; tr[td]} is [[td,td,td],[td,null,td]] with
the null in the second slot of the second row and the rowspanned cell in
the third.  The code produces the rowspanned cell in its own column (the
second slot) and the null at the end. -/
theorem generateCellMatrix_c2_claim_false :
    generateCellMatrix [c2Row1, c2Row2] ≠
      [[some c2CellA, some c2CellB, some c2CellC],
       [some c2CellD, none, some c2CellB]] := by
  decide

/-- C2 (amended): the matrix of tbody{tr[td, td(rowspan2), td]; tr[td]} is
[[td,td,td],[td,td,null]]: in the second row the rowspanned cell from the
first row occupies the second slot (its own column) and the missing cell
appears as null in the third slot. -/
theorem generateCellMatrix_c2_value :
    generateCellMatrix [c2Row1, c2Row2] =
      [[some c2CellA, some c2CellB, some c2CellC],
       [some c2CellD, some c2CellB, none]] := by
  decide

/-! ## C4: safeInsert failure aborts with no side effects -/

/-- C4: in the element:table upcast handler, when safeInsert of the newly
created model table is rejected by the schema, the handler returns the
conversion state unchanged: nothing is inserted into the model, the view
table's name consumable is not consumed (consumption only happens after a
successful safeInsert in the source), no rows or children are converted,
and no conversion result is recorded. -/
theorem upcastTable_safeInsert_failure_no_effects :
    ∀ (env : ConvEnv) (viewTable : ViewNode) (st : ConvState),
      env.allowInsert (scannedTableElement viewTable) st = false →
      upcastTableHandler env viewTable st = st := by
  intro env v st h
  unfold upcastTableHandler
  cases ht : testDesc st v ConsumeDesc.nameOnly
  · simp [ht]
  · simp [ht, h]

/-- Witness for C4: a schema oracle that rejects everything leaves a
concrete state untouched. -/
theorem upcastTable_safeInsert_failure_witness :
    upcastTableHandler
      { allowInsert := fun _ _ => false,
        convertItem := fun _ s => (s, []),
        convertChildren := fun _ s => (s, []) }
      c1Table
      { consumable := fun _ _ => true, doc := [], result := none } =
      { consumable := fun _ _ => true, doc := [], result := none } :=
  upcastTable_safeInsert_failure_no_effects _ _ _ rfl

/-! ## C5: figure conversion guards and revert -/

theorem testDesc_revertDesc_self (st : ConvState) (item : ViewNode) (d : ConsumeDesc) :
    testDesc (revertDesc st item d) item d = true := by
  unfold testDesc revertDesc setAspects
  rw [List.all_eq_true]
  intro a ha
  simp [ha]

/-- C5: the element:figure upcast handler does nothing (the figure stays
unconsumed) when the figure's name+class consumable is unavailable, when
the figure has no `<table>` child, or when that child's name consumable is
unavailable; and when it does consume the figure but the delegated
conversion of the inner table yields no model table, it reverts the figure
consumption, so the figure's name+class consumable tests available again
afterwards. -/
theorem upcastTableFigure_guards_and_revert :
    ∀ (env : ConvEnv) (fig : ViewNode) (st : ConvState),
      (testDesc st fig (ConsumeDesc.nameAndClass "table") = false →
        upcastTableFigureHandler env fig st = st) ∧
      (getViewTableFromFigure fig = none → upcastTableFigureHandler env fig st = st) ∧
      (∀ vt, getViewTableFromFigure fig = some vt →
        testDesc st vt ConsumeDesc.nameOnly = false →
        upcastTableFigureHandler env fig st = st) ∧
      (∀ vt, getViewTableFromFigure fig = some vt →
        testDesc st fig (ConsumeDesc.nameAndClass "table") = true →
        testDesc st vt ConsumeDesc.nameOnly = true →
        (env.convertItem vt (consumeDesc st fig (ConsumeDesc.nameAndClass "table"))).2 = [] →
        testDesc (upcastTableFigureHandler env fig st) fig
          (ConsumeDesc.nameAndClass "table") = true) := by
  intro env fig st
  refine ⟨?_, ?_, ?_, ?_⟩
  · intro h
    unfold upcastTableFigureHandler
    simp [h]
  · intro h
    unfold upcastTableFigureHandler
    cases ht : testDesc st fig (ConsumeDesc.nameAndClass "table") <;> simp [ht, h]
  · intro vt hvt h
    unfold upcastTableFigureHandler
    cases ht : testDesc st fig (ConsumeDesc.nameAndClass "table") <;> simp [ht, hvt, h]
  · intro vt hvt ht1 ht2 hconv
    unfold upcastTableFigureHandler
    simp only [ht1, Bool.not_true, Bool.false_eq_true, if_false, hvt, ht2]
    rw [hconv]
    exact testDesc_revertDesc_self _ _ _

/-- Witness for C5: with an inner conversion that produces no model items,
the figure's name+class consumable of a concrete figure tests available
again after the handler ran. -/
theorem upcastTableFigure_revert_witness :
    testDesc
      (upcastTableFigureHandler
        { allowInsert := fun _ _ => true,
          convertItem := fun _ s => (s, []),
          convertChildren := fun _ s => (s, []) }
        (ViewNode.element "figure" [("class", "table")] [mkTable []])
        { consumable := fun _ _ => true, doc := [], result := none })
      (ViewNode.element "figure" [("class", "table")] [mkTable []])
      (ConsumeDesc.nameAndClass "table") = true :=
  (upcastTableFigure_guards_and_revert _ _ _).2.2.2 (mkTable []) rfl rfl rfl rfl

/-! ## C6: converted tables are never structurally empty -/

/-- C6: every model table produced by the element:table upcast handler is
non-empty: the handler records a conversion result whose child list is
nonempty, and when converting the rows and remaining children produced
nothing at all, that child list is exactly one tableRow containing exactly
one empty table cell. -/
theorem upcastTable_result_nonempty :
    ∀ (env : ConvEnv) (viewTable : ViewNode) (st : ConvState),
      testDesc st viewTable ConsumeDesc.nameOnly = true →
      env.allowInsert (scannedTableElement viewTable) st = true →
      ∃ tbl, (upcastTableHandler env viewTable st).result = some tbl ∧
        tbl.children ≠ [] ∧
        ((upcastConvertedChildren env viewTable
            (consumeDesc st viewTable ConsumeDesc.nameOnly)).2 = [] →
          tbl.children = [ModelElement.mk "tableRow" [] [createEmptyTableCellModel]]) := by
  intro env v st ht ha
  unfold upcastTableHandler
  simp only [ht, Bool.not_true, Bool.false_eq_true, if_false, scannedTableElement] at *
  rw [show env.allowInsert (ModelElement.mk "table" (scannedTableAttrs v) []) st = true from ha]
  simp only [Bool.not_true, Bool.false_eq_true, if_false]
  refine ⟨_, rfl, ?_, ?_⟩
  · cases hconv : (upcastConvertedChildren env v (consumeDesc st v ConsumeDesc.nameOnly)).2 with
    | nil => simp [hconv, ModelElement.children]
    | cons x xs => simp [hconv, ModelElement.children]
  · intro hconv
    simp [hconv, ModelElement.children]

/-- Witness for C6: with conversion oracles that produce nothing, a
concrete table converts to the synthesized one-row one-cell table. -/
theorem upcastTable_result_nonempty_witness :
    ∃ tbl, (upcastTableHandler
      { allowInsert := fun _ _ => true,
        convertItem := fun _ s => (s, []),
        convertChildren := fun _ s => (s, []) }
      (mkTable [])
      { consumable := fun _ _ => true, doc := [], result := none }).result = some tbl ∧
      tbl.children ≠ [] ∧
      ((upcastConvertedChildren
          { allowInsert := fun _ _ => true,
            convertItem := fun _ s => (s, []),
            convertChildren := fun _ s => (s, []) }
          (mkTable [])
          (consumeDesc { consumable := fun _ _ => true, doc := [], result := none }
            (mkTable []) ConsumeDesc.nameOnly)).2 = [] →
        tbl.children = [ModelElement.mk "tableRow" [] [createEmptyTableCellModel]]) :=
  upcastTable_result_nonempty _ _ _ rfl rfl

/-! ## C7: the skipEmptyTableRow guard -/

/-- C7: the skipEmptyTableRow guard stops conversion of a `<tr>` exactly
when the view row is empty and the model cursor index is 0 (the very
first row inserted into an empty destination); an empty `<tr>` at any
later cursor position is not stopped, so it is preserved by the normal
converters. -/
theorem skipEmptyTableRow_guard :
    ∀ (viewItem : ViewNode) (cursorIndex : Nat),
      skipEmptyTableRowStops viewItem cursorIndex = true ↔
        (viewItem.viewIsEmpty = true ∧ cursorIndex = 0) := by
  intro v i
  unfold skipEmptyTableRowStops
  simp [Bool.and_eq_true]

/-- Witness for C7: an empty row at cursor index 0 is stopped; the same
empty row at cursor index 1 is not. -/
theorem skipEmptyTableRow_guard_witness :
    skipEmptyTableRowStops (mkTr []) 0 = true ∧
      skipEmptyTableRowStops (mkTr []) 1 = false :=
  ⟨(skipEmptyTableRow_guard (mkTr []) 0).2 ⟨rfl, rfl⟩, by
    cases hs : skipEmptyTableRowStops (mkTr []) 1
    · rfl
    · exact absurd ((skipEmptyTableRow_guard (mkTr []) 1).1 hs).2 (by decide)⟩

/-! ## Map lemmas for the operation model -/

theorem alookup_filter_ne {β : Type} (k k' : String) (l : List (String × β)) (hne : k' ≠ k) :
    alookup k' (l.filter (fun e => !(e.1 = k : Bool))) = alookup k' l := by
  induction l with
  | nil => rfl
  | cons e l ih =>
    by_cases he : e.1 = k
    · have h2 : ¬ (e.1 = k') := fun hh => hne (hh ▸ he)
      simp [List.filter_cons, he, h2, alookup, ih]
      rw [if_neg (fun hh : k = k' => hne hh.symm)]
    · simp [List.filter_cons, he, alookup, ih]

theorem alookup_filter_self {β : Type} (k : String) (l : List (String × β)) :
    alookup k (l.filter (fun e => !(e.1 = k : Bool))) = none := by
  induction l with
  | nil => rfl
  | cons e l ih =>
    by_cases he : e.1 = k
    · simp [List.filter_cons, he, ih]
    · simp [List.filter_cons, he, alookup, ih]

theorem alookup_map_replace_self {β : Type} (k : String) (v : β) (l : List (String × β))
    (h : (alookup k l).isSome = true) :
    alookup k (l.map (fun e => if e.1 = k then (k, v) else e)) = some v := by
  induction l with
  | nil => simp [alookup] at h
  | cons e l ih =>
    by_cases he : e.1 = k
    · simp [alookup, he]
    · simp only [alookup, if_neg he] at h
      simp only [List.map_cons, if_neg he, alookup, if_neg he, ih h]

theorem alookup_map_replace_ne {β : Type} (k k' : String) (v : β) (l : List (String × β))
    (hne : k' ≠ k) :
    alookup k' (l.map (fun e => if e.1 = k then (k, v) else e)) = alookup k' l := by
  induction l with
  | nil => rfl
  | cons e l ih =>
    by_cases he : e.1 = k
    · have h2 : ¬ (e.1 = k') := fun hh => hne (hh ▸ he)
      simp only [List.map_cons, if_pos he, alookup, ih]
      rw [if_neg (fun hh : k = k' => hne hh.symm), if_neg h2]
    · simp only [List.map_cons, if_neg he, alookup, ih]

theorem alookup_aset_self {β : Type} (k : String) (v : Option β) (l : List (String × β)) :
    alookup k (aset k v l) = v := by
  cases v with
  | none => exact alookup_filter_self k l
  | some v' =>
    simp only [aset]
    by_cases h : (alookup k l).isSome = true
    · rw [if_pos h]
      exact alookup_map_replace_self k v' l h
    · rw [if_neg h]
      simp [alookup]

theorem alookup_aset_ne {β : Type} (k k' : String) (v : Option β) (l : List (String × β))
    (hne : k' ≠ k) :
    alookup k' (aset k v l) = alookup k' l := by
  cases v with
  | none => exact alookup_filter_ne k k' l hne
  | some v' =>
    simp only [aset]
    by_cases h : (alookup k l).isSome = true
    · rw [if_pos h]
      exact alookup_map_replace_ne k k' v' l hne
    · rw [if_neg h]
      simp only [alookup]
      rw [if_neg (fun hh : k = k' => hne hh.symm)]

theorem alookup_eq_none_of_not_mem {β : Type} (k : String) (l : List (String × β))
    (h : k ∉ l.map (·.1)) : alookup k l = none := by
  induction l with
  | nil => rfl
  | cons e l ih =>
    simp only [List.map_cons, List.mem_cons] at h
    push_neg at h
    simp only [alookup]
    rw [if_neg (fun hh => h.1 hh.symm)]
    exact ih h.2

theorem attrsEquivB_iff {β : Type} [DecidableEq β] (a b : List (String × β)) :
    attrsEquivB a b = true ↔ ∀ k, alookup k a = alookup k b := by
  unfold attrsEquivB
  rw [List.all_eq_true]
  constructor
  · intro h k
    by_cases hk : k ∈ a.map (·.1) ++ b.map (·.1)
    · exact of_decide_eq_true (h k hk)
    · rw [List.mem_append] at hk
      push_neg at hk
      rw [alookup_eq_none_of_not_mem k a hk.1, alookup_eq_none_of_not_mem k b hk.2]
  · intro h k _
    exact decide_eq_true (h k)

theorem attrsEquivB_refl {β : Type} [DecidableEq β] (a : List (String × β)) :
    attrsEquivB a a = true :=
  (attrsEquivB_iff a a).2 (fun _ => rfl)

/-! ## Observational equivalence lemmas -/

mutual

theorem nodeEquivB_refl : ∀ x : MNode, nodeEquivB x x = true
  | .text s a => by simp [nodeEquivB, attrsEquivB_refl]
  | .element n a c => by
    simp [nodeEquivB, attrsEquivB_refl, nodeListEquivB_refl c]

theorem nodeListEquivB_refl : ∀ l : List MNode, nodeListEquivB l l = true
  | [] => rfl
  | x :: xs => by simp [nodeListEquivB, nodeEquivB_refl x, nodeListEquivB_refl xs]

end

theorem get?_set_self {α : Type} : ∀ (c : List α) (i : Nat) (x ch : α),
    c.get? i = some ch → (c.set i x).get? i = some x := by
  intro c
  induction c with
  | nil => intro i x ch h; simp at h
  | cons y c ih =>
    intro i x ch h
    cases i with
    | zero => simp [List.set]
    | succ i =>
      simp only [List.get?] at h
      simp only [List.set, List.get?]
      exact ih i x ch h

theorem nodeListEquivB_set : ∀ (c : List MNode) (i : Nat) (x ch : MNode),
    c.get? i = some ch → nodeEquivB x ch = true → nodeListEquivB (c.set i x) c = true := by
  intro c
  induction c with
  | nil => intro i x ch h; simp at h
  | cons y c ih =>
    intro i x ch h hx
    cases i with
    | zero =>
      simp only [List.get?, Option.some.injEq] at h
      subst h
      simp [List.set, nodeListEquivB, hx, nodeListEquivB_refl c]
    | succ i =>
      simp only [List.get?] at h
      simp [List.set, nodeListEquivB, nodeEquivB_refl y, ih i x ch h hx]

/-! ## Round-trip lemmas for the operation kinds -/

theorem modifyAtPath_round (f g : MNode → Option MNode)
    (H : ∀ u u', f u = some u' → ∃ u'', g u' = some u'' ∧ nodeEquivB u'' u = true) :
    ∀ (p : List Nat) (t t' : MNode), modifyAtPath f p t = some t' →
      ∃ t'', modifyAtPath g p t' = some t'' ∧ nodeEquivB t'' t = true := by
  intro p
  induction p with
  | nil => intro t t' h; exact H t t' h
  | cons i p ih =>
    intro t t' h
    cases t with
    | text s a => simp [modifyAtPath] at h
    | element n a c =>
      simp only [modifyAtPath] at h
      cases hc : c.get? i with
      | none => rw [hc] at h; simp at h
      | some ch =>
        rw [hc] at h
        have h2 : (modifyAtPath f p ch).map
            (fun child' => MNode.element n a (c.set i child')) = some t' := h
        clear h
        cases hm : modifyAtPath f p ch with
        | none => rw [hm] at h2; simp at h2
        | some ch' =>
          rw [hm] at h2
          simp only [Option.map_some', Option.some.injEq] at h2
          have h := h2
          obtain ⟨ch'', hg, hequiv⟩ := ih ch ch' hm
          refine ⟨.element n a ((c.set i ch').set i ch''), ?_, ?_⟩
          · rw [← h]
            simp only [modifyAtPath]
            rw [get?_set_self c i ch' ch hc]
            show (modifyAtPath g p ch').map
                (fun child' => MNode.element n a ((c.set i ch').set i child')) =
              some (MNode.element n a ((c.set i ch').set i ch''))
            rw [hg]
            rfl
          · rw [List.set_set]
            simp only [nodeEquivB, Bool.and_eq_true]
            refine ⟨⟨by simp, attrsEquivB_refl a⟩, nodeListEquivB_set c i ch'' ch hc hequiv⟩

theorem drop_append_length {α : Type} (m : Nat) (l1 x : List α) (h : l1.length = m) :
    (l1 ++ x).drop m = x := by
  rw [← h]
  exact List.drop_left _ _

theorem take_append_length {α : Type} (m : Nat) (l1 x : List α) (h : l1.length = m) :
    (l1 ++ x).take m = l1 := by
  rw [← h]
  exact List.take_left _ _

theorem insert_then_remove (o : Nat) (ns : List MNode) :
    ∀ u u', insertChildren o ns u = some u' → removeChildren o ns u' = some u := by
  intro u u' h
  cases u with
  | text s a => simp [insertChildren] at h
  | element n a c =>
    simp only [insertChildren] at h
    by_cases ho : o ≤ c.length
    · rw [if_pos ho] at h
      simp only [Option.some.injEq] at h
      have htl : (c.take o).length = o := by
        simp [List.length_take, Nat.min_eq_left ho]
      have hassoc : c.take o ++ ns ++ c.drop o = c.take o ++ (ns ++ c.drop o) :=
        List.append_assoc _ _ _
      have hdrop : (c.take o ++ ns ++ c.drop o).drop o = ns ++ c.drop o := by
        rw [hassoc]
        exact drop_append_length o _ _ htl
      have htake : (ns ++ c.drop o).take ns.length = ns := List.take_left _ _
      have hguard : o ≤ (c.take o ++ ns ++ c.drop o).length ∧
          ((c.take o ++ ns ++ c.drop o).drop o).take ns.length = ns := by
        constructor
        · simp only [List.length_append, htl]
          omega
        · rw [hdrop, htake]
      rw [← h]
      simp only [removeChildren]
      rw [if_pos hguard]
      have h1 : (c.take o ++ ns ++ c.drop o).take o = c.take o := by
        rw [hassoc]
        exact take_append_length o _ _ htl
      have h2 : (c.take o ++ ns ++ c.drop o).drop (o + ns.length) = c.drop o := by
        have : c.take o ++ ns ++ c.drop o = (c.take o ++ ns) ++ c.drop o := rfl
        rw [this]
        exact drop_append_length (o + ns.length) _ _ (by simp [htl])
      rw [h1, h2, List.take_append_drop]
    · rw [if_neg ho] at h
      simp at h

theorem remove_then_insert (o : Nat) (ns : List MNode) :
    ∀ u u', removeChildren o ns u = some u' → insertChildren o ns u' = some u := by
  intro u u' h
  cases u with
  | text s a => simp [removeChildren] at h
  | element n a c =>
    simp only [removeChildren] at h
    by_cases hg : o ≤ c.length ∧ (c.drop o).take ns.length = ns
    · rw [if_pos hg] at h
      simp only [Option.some.injEq] at h
      obtain ⟨ho, hslice⟩ := hg
      have htl : (c.take o).length = o := by
        simp [List.length_take, Nat.min_eq_left ho]
      have hok : ns.length ≤ c.length - o := by
        have hlen := congrArg List.length hslice
        simp only [List.length_take, List.length_drop] at hlen
        omega
      have hguard : o ≤ (c.take o ++ c.drop (o + ns.length)).length := by
        simp only [List.length_append, htl, List.length_drop]
        omega
      rw [← h]
      simp only [insertChildren]
      rw [if_pos hguard]
      have h1 : (c.take o ++ c.drop (o + ns.length)).take o = c.take o :=
        take_append_length o _ _ htl
      have h2 : (c.take o ++ c.drop (o + ns.length)).drop o = c.drop (o + ns.length) :=
        drop_append_length o _ _ htl
      rw [h1, h2]
      have hsplit : c.drop o = ns ++ c.drop (o + ns.length) := by
        conv_lhs => rw [← List.take_append_drop ns.length (c.drop o)]
        rw [hslice]
        congr 1
        rw [List.drop_drop]
      have hfin : c.take o ++ ns ++ c.drop (o + ns.length) = c :=
        calc c.take o ++ ns ++ c.drop (o + ns.length)
            = c.take o ++ (ns ++ c.drop (o + ns.length)) := List.append_assoc _ _ _
          _ = c.take o ++ c.drop o := by rw [← hsplit]
          _ = c := List.take_append_drop _ _
      rw [hfin]
    · rw [if_neg hg] at h
      simp at h

theorem setNodeAttr_round (k : String) (ov nv : Option String) :
    ∀ u u', setNodeAttr k ov nv u = some u' →
      ∃ u'', setNodeAttr k nv ov u' = some u'' ∧ nodeEquivB u'' u = true := by
  intro u u' h
  have hattrs : ∀ a : List (String × String), alookup k a = ov →
      attrsEquivB (aset k ov (aset k nv a)) a = true := by
    intro a ha
    rw [attrsEquivB_iff]
    intro k'
    by_cases hk : k' = k
    · subst hk
      rw [alookup_aset_self, ha]
    · rw [alookup_aset_ne _ _ _ _ hk, alookup_aset_ne _ _ _ _ hk]
  cases u with
  | text s a =>
    simp only [setNodeAttr] at h
    by_cases ha : alookup k a = ov
    · rw [if_pos ha] at h
      simp only [Option.some.injEq] at h
      refine ⟨.text s (aset k ov (aset k nv a)), ?_, ?_⟩
      · rw [← h]
        simp only [setNodeAttr]
        rw [if_pos (alookup_aset_self k nv a)]
      · simp only [nodeEquivB, Bool.and_eq_true]
        exact ⟨by simp, hattrs a ha⟩
    · rw [if_neg ha] at h
      simp at h
  | element n a c =>
    simp only [setNodeAttr] at h
    by_cases ha : alookup k a = ov
    · rw [if_pos ha] at h
      simp only [Option.some.injEq] at h
      refine ⟨.element n (aset k ov (aset k nv a)) c, ?_, ?_⟩
      · rw [← h]
        simp only [setNodeAttr]
        rw [if_pos (alookup_aset_self k nv a)]
      · simp only [nodeEquivB, Bool.and_eq_true]
        exact ⟨⟨by simp, hattrs a ha⟩, nodeListEquivB_refl c⟩
    · rw [if_neg ha] at h
      simp at h

theorem renameNode_round (a c : String) :
    ∀ u u', renameNode a c u = some u' → renameNode c a u' = some u := by
  intro u u' h
  cases u with
  | text s at0 => simp [renameNode] at h
  | element n at0 ch =>
    simp only [renameNode] at h
    by_cases hn : n = a
    · rw [if_pos hn] at h
      simp only [Option.some.injEq] at h
      rw [← h]
      simp [renameNode, hn]
    · rw [if_neg hn] at h
      simp at h

/-! ## C9: executing an operation then its reverse restores the tree -/

/-- C9: for every operation applied at a matching baseVersion, executing
the operation and then its getReversed immediately afterwards yields a
tree state observationally identical to the state before: the reverse
applies at the advanced version, and the resulting root and marker map
are observationally equal (same shape, text and names, equal attribute
and marker lookups) to the originals.  getReversed is a pure function of
the operation (the embedding is purely functional: it cannot mutate the
operation or the tree). -/
theorem applyOperation_getReversed_restores :
    ∀ (op : Operation) (d d' : MDocument),
      applyOperation d op = some d' →
      ∃ d'', applyOperation d' op.getReversed = some d'' ∧
        nodeEquivB d''.root d.root = true ∧
        (∀ n, alookup n d''.markers = alookup n d.markers) := by
  intro op d d' h
  unfold applyOperation at h
  by_cases hv : op.baseVersion = d.version
  · rw [if_pos hv] at h
    cases hex : executeOp op d.root d.markers with
    | none => rw [hex] at h; simp at h
    | some r =>
      rw [hex] at h
      simp only [Option.map_some', Option.some.injEq] at h
      have hver : op.getReversed.baseVersion = d'.version := by
        rw [← h]
        cases op <;> simp [Operation.getReversed, Operation.baseVersion] at hv ⊢ <;> omega
      cases op with
      | insertOp p o ns b =>
        simp only [executeOp] at hex
        cases hmod : modifyAtPath (insertChildren o ns) p d.root with
        | none => rw [hmod] at hex; simp at hex
        | some root' =>
          rw [hmod] at hex
          simp only [Option.map_some', Option.some.injEq] at hex
          obtain ⟨root'', hg, hequiv⟩ := modifyAtPath_round
            (insertChildren o ns) (removeChildren o ns)
            (fun u u' hu => ⟨u, insert_then_remove o ns u u' hu, nodeEquivB_refl u⟩)
            p d.root root' hmod
          refine ⟨⟨root'', d'.markers, d'.version + 1⟩, ?_, ?_, ?_⟩
          · unfold applyOperation
            rw [if_pos hver]
            simp only [Operation.getReversed, executeOp]
            have hroot : d'.root = root' := by rw [← h, ← hex]
            rw [hroot, hg]
            rfl
          · exact hequiv
          · intro nm
            have hmk : d'.markers = d.markers := by rw [← h]; rw [← hex]
            rw [hmk]
      | removeOp p o ns b =>
        simp only [executeOp] at hex
        cases hmod : modifyAtPath (removeChildren o ns) p d.root with
        | none => rw [hmod] at hex; simp at hex
        | some root' =>
          rw [hmod] at hex
          simp only [Option.map_some', Option.some.injEq] at hex
          obtain ⟨root'', hg, hequiv⟩ := modifyAtPath_round
            (removeChildren o ns) (insertChildren o ns)
            (fun u u' hu => ⟨u, remove_then_insert o ns u u' hu, nodeEquivB_refl u⟩)
            p d.root root' hmod
          refine ⟨⟨root'', d'.markers, d'.version + 1⟩, ?_, ?_, ?_⟩
          · unfold applyOperation
            rw [if_pos hver]
            simp only [Operation.getReversed, executeOp]
            have hroot : d'.root = root' := by rw [← h, ← hex]
            rw [hroot, hg]
            rfl
          · exact hequiv
          · intro nm
            have hmk : d'.markers = d.markers := by rw [← h]; rw [← hex]
            rw [hmk]
      | attributeOp p k ov nv b =>
        simp only [executeOp] at hex
        cases hmod : modifyAtPath (setNodeAttr k ov nv) p d.root with
        | none => rw [hmod] at hex; simp at hex
        | some root' =>
          rw [hmod] at hex
          simp only [Option.map_some', Option.some.injEq] at hex
          obtain ⟨root'', hg, hequiv⟩ := modifyAtPath_round
            (setNodeAttr k ov nv) (setNodeAttr k nv ov)
            (setNodeAttr_round k ov nv)
            p d.root root' hmod
          refine ⟨⟨root'', d'.markers, d'.version + 1⟩, ?_, ?_, ?_⟩
          · unfold applyOperation
            rw [if_pos hver]
            simp only [Operation.getReversed, executeOp]
            have hroot : d'.root = root' := by rw [← h, ← hex]
            rw [hroot, hg]
            rfl
          · exact hequiv
          · intro nm
            have hmk : d'.markers = d.markers := by rw [← h]; rw [← hex]
            rw [hmk]
      | renameOp p a c b =>
        simp only [executeOp] at hex
        cases hmod : modifyAtPath (renameNode a c) p d.root with
        | none => rw [hmod] at hex; simp at hex
        | some root' =>
          rw [hmod] at hex
          simp only [Option.map_some', Option.some.injEq] at hex
          obtain ⟨root'', hg, hequiv⟩ := modifyAtPath_round
            (renameNode a c) (renameNode c a)
            (fun u u' hu => ⟨u, renameNode_round a c u u' hu, nodeEquivB_refl u⟩)
            p d.root root' hmod
          refine ⟨⟨root'', d'.markers, d'.version + 1⟩, ?_, ?_, ?_⟩
          · unfold applyOperation
            rw [if_pos hver]
            simp only [Operation.getReversed, executeOp]
            have hroot : d'.root = root' := by rw [← h, ← hex]
            rw [hroot, hg]
            rfl
          · exact hequiv
          · intro nm
            have hmk : d'.markers = d.markers := by rw [← h]; rw [← hex]
            rw [hmk]
      | markerOp nm a c b =>
        simp only [executeOp] at hex
        by_cases hcur : alookup nm d.markers = a
        · rw [if_pos hcur] at hex
          simp only [Option.some.injEq] at hex
          refine ⟨⟨d'.root, aset nm a d'.markers, d'.version + 1⟩, ?_, ?_, ?_⟩
          · unfold applyOperation
            rw [if_pos hver]
            simp only [Operation.getReversed, executeOp]
            have hmk : d'.markers = aset nm c d.markers := by rw [← h]; rw [← hex]
            rw [hmk, if_pos (alookup_aset_self nm c d.markers)]
            rfl
          · have hroot : d'.root = d.root := by rw [← h]; rw [← hex]
            rw [hroot]
            exact nodeEquivB_refl _
          · intro n'
            have hmk : d'.markers = aset nm c d.markers := by rw [← h]; rw [← hex]
            rw [hmk]
            by_cases hk : n' = nm
            · subst hk
              rw [alookup_aset_self, hcur]
            · rw [alookup_aset_ne _ _ _ _ hk, alookup_aset_ne _ _ _ _ hk]
        · rw [if_neg hcur] at hex
          simp at hex
  · rw [if_neg hv] at h
    simp at h

/-- Witness for C9: a concrete attribute operation on a one-node document
round-trips: applying it succeeds, and applying its reverse restores the
original root and markers observationally. -/
theorem applyOperation_getReversed_witness :
    ∃ d'', applyOperation
        ⟨.element "paragraph" [("bold", "2")] [], [], 1⟩
        (Operation.attributeOp [] "bold" (some "1") (some "2") 0).getReversed = some d'' ∧
      nodeEquivB d''.root
        (⟨.element "paragraph" [("bold", "1")] [], [], 0⟩ : MDocument).root = true ∧
      (∀ n, alookup n d''.markers =
        alookup n (⟨.element "paragraph" [("bold", "1")] [], [], 0⟩ : MDocument).markers) := by
  have h : applyOperation ⟨.element "paragraph" [("bold", "1")] [], [], 0⟩
      (Operation.attributeOp [] "bold" (some "1") (some "2") 0) =
      some ⟨.element "paragraph" [("bold", "2")] [], [], 1⟩ := by rfl
  exact applyOperation_getReversed_restores _ _ _ h

end CkSpec
